import Mathlib

/-!
Verification of the santa-lang "Prancer" CLI and runner against the
repository specification.

The development shallowly embeds the relevant TypeScript sources:

* `src/cli/src/io.ts` — console capture state, the injected `output`
  handle, and the `aoc://` puzzle-input resolution (`readAoC`);
* `src/cli/src/index.ts` — test-mode exit-code handling;
* `src/cli/src/output.ts` — `formatTestJson`, `formatErrorJson`,
  `isSolutionSource`;
* the runner's `runTests` and the runtime value model's `equals`/`hashCode`
  are not part of the provided sources (only their interface and unit tests
  are), so they are modelled from the specification where indicated.

Effects (clock readings, the file system, the environment, spawned
processes) are passed explicitly as data.
-/

namespace Prancer

/-- Console entry as in `src/cli/src/output.ts`: one captured `puts` line,
stamped relative to the capture start. -/
structure ConsoleEntry where
  timestamp_ms : Int
  message : String
deriving DecidableEq

/-- State owned by `src/cli/src/io.ts`: the console capture buffer
(`none` when capture is disabled), the capture start time, and the lines
printed to stdout in normal mode. -/
structure CliState where
  consoleBuffer : Option (List ConsoleEntry)
  captureStartTime : Int
  printed : List String
deriving DecidableEq

/-- Embedding of `enableConsoleCapture` (io.ts): record the current clock
reading and reset the buffer.  The clock reading is an explicit argument. -/
def enableConsoleCapture (now : Int) (st : CliState) : CliState :=
  { st with captureStartTime := now, consoleBuffer := some [] }

/-- Embedding of `disableConsoleCapture` (io.ts): return the captured
entries (an empty list when capture was off) and clear the buffer. -/
def disableConsoleCapture (st : CliState) : List ConsoleEntry × CliState :=
  (st.consoleBuffer.getD [], { st with consoleBuffer := none })

/-- JavaScript `args.join(' ')`. -/
def joinArgs (args : List String) : String :=
  String.intercalate " " args

/-- Embedding of the I/O handle's `output` (io.ts): a zero-argument call
returns immediately; otherwise the space-joined message is either pushed to
the capture buffer (with its timestamp relative to the capture start) or
printed to stdout. -/
def output (now : Int) (args : List String) (st : CliState) : CliState :=
  if args.isEmpty then st
  else
    let message := joinArgs args
    match st.consoleBuffer with
    | some buf =>
        { st with
          consoleBuffer := some (buf ++ [⟨now - st.captureStartTime, message⟩]) }
    | none => { st with printed := st.printed ++ [message] }

/-- A sequence of `output` calls, each with its clock reading, performed in
order. -/
def runOutputs : List (Int × List String) → CliState → CliState
  | [], st => st
  | c :: rest, st => runOutputs rest (output c.1 c.2 st)

/-- The entries returned by `disableConsoleCapture` after enabling capture
at time `t0` and performing `calls`. -/
def capturedEntries (t0 : Int) (calls : List (Int × List String)) (st0 : CliState) :
    List ConsoleEntry :=
  (disableConsoleCapture (runOutputs calls (enableConsoleCapture t0 st0))).1

/-- Result of comparing one part inside a test case (`output.ts`,
`TestCaseResult`). -/
structure TestCaseResult where
  expected : String
  actual : String
  hasPassed : Bool
deriving DecidableEq

/-- One test case as produced by the runner (`output.ts`, `TestCase`). -/
structure TestCase where
  partOne : Option TestCaseResult
  partTwo : Option TestCaseResult
  slow : Bool
  skipped : Bool
deriving DecidableEq

/-- JSON rendering of a part comparison (`output.ts`, `JsonTestPartResult`). -/
structure JsonTestPartResult where
  passed : Bool
  expected : String
  actual : String
deriving DecidableEq

/-- JSON rendering of one test case (`output.ts`, `JsonTestCase`). -/
structure JsonTestCase where
  index : Nat
  slow : Bool
  status : String
  part_one : Option JsonTestPartResult
  part_two : Option JsonTestPartResult
deriving DecidableEq

/-- Summary block of the JSON test output (`output.ts`, `TestSummary`). -/
structure TestSummary where
  total : Nat
  passed : Nat
  failed : Nat
  skipped : Nat
deriving DecidableEq

/-- Top-level JSON test output (`output.ts`, `JsonTestOutput`). -/
structure JsonTestOutput where
  type : String
  status : String
  success : Bool
  summary : TestSummary
  tests : List JsonTestCase
  console : List ConsoleEntry
deriving DecidableEq

/-- The code's `tc.partOne === undefined || tc.partOne.hasPassed`. -/
def partOnePassedB (tc : TestCase) : Bool :=
  match tc.partOne with
  | none => true
  | some r => r.hasPassed

/-- The code's `tc.partTwo === undefined || tc.partTwo.hasPassed`. -/
def partTwoPassedB (tc : TestCase) : Bool :=
  match tc.partTwo with
  | none => true
  | some r => r.hasPassed

/-- The code's `allPassed` inside `formatTestJson`. -/
def allPassedB (tc : TestCase) : Bool :=
  partOnePassedB tc && partTwoPassedB tc

/-- The JSON object built for one test case by `formatTestJson`'s map
callback (`output.ts` lines 178-222).  A part is rendered only when the
solution declares that part and the test produced a comparison for it. -/
def formatTestCaseJson (hasPartOne hasPartTwo : Bool) (i : Nat) (tc : TestCase) :
    JsonTestCase :=
  if tc.skipped then
    { index := i + 1, slow := tc.slow, status := "skipped",
      part_one := none, part_two := none }
  else
    { index := i + 1
      slow := tc.slow
      status := "complete"
      part_one :=
        match hasPartOne, tc.partOne with
        | true, some r => some ⟨r.hasPassed, r.expected, r.actual⟩
        | _, _ => none
      part_two :=
        match hasPartTwo, tc.partTwo with
        | true, some r => some ⟨r.hasPassed, r.expected, r.actual⟩
        | _, _ => none }

/-- Single pass of `formatTestJson` over the test cases, threading the
`passed` / `failed` / `skipped` counters exactly as the source mutates
them (`output.ts` lines 174-222). -/
def formatTestsGo (hasPartOne hasPartTwo : Bool) :
    List TestCase → Nat → Nat → Nat → Nat → List JsonTestCase × Nat × Nat × Nat
  | [], _, p, f, s => ([], p, f, s)
  | tc :: rest, i, p, f, s =>
    if tc.skipped then
      let r := formatTestsGo hasPartOne hasPartTwo rest (i + 1) p f (s + 1)
      (formatTestCaseJson hasPartOne hasPartTwo i tc :: r.1, r.2)
    else if allPassedB tc then
      let r := formatTestsGo hasPartOne hasPartTwo rest (i + 1) (p + 1) f s
      (formatTestCaseJson hasPartOne hasPartTwo i tc :: r.1, r.2)
    else
      let r := formatTestsGo hasPartOne hasPartTwo rest (i + 1) p (f + 1) s
      (formatTestCaseJson hasPartOne hasPartTwo i tc :: r.1, r.2)

/-- Embedding of `formatTestJson` (`output.ts` lines 168-237). -/
def formatTestJson (testCases : List TestCase) (hasPartOne hasPartTwo : Bool)
    (console : List ConsoleEntry) : JsonTestOutput :=
  let r := formatTestsGo hasPartOne hasPartTwo testCases 0 0 0 0
  { type := "test"
    status := "complete"
    success := r.2.2.1 == 0
    summary :=
      { total := testCases.length
        passed := r.2.1
        failed := r.2.2.1
        skipped := r.2.2.2 }
    tests := r.1
    console := console }

/-- The code's `tc.partOne && !tc.partOne.hasPassed` on an optional part. -/
def partFailedB (r : Option TestCaseResult) : Bool :=
  match r with
  | none => false
  | some x => !x.hasPassed

/-- The predicate inside `testCases.some(...)` used for the JSON-mode exit
code (`index.ts`): a non-skipped test with a failing part. -/
def testCaseFailsB (tc : TestCase) : Bool :=
  !tc.skipped && (partFailedB tc.partOne || partFailedB tc.partTwo)

/-- Exit code of the CLI in JSON test mode (`index.ts`): 3 when some
non-skipped test has a failing part, 0 otherwise. -/
def jsonTestExitCode (testCases : List TestCase) : Nat :=
  if testCases.any testCaseFailsB then 3 else 0

/-- Exit code of the CLI in text test mode (`index.ts`): the loop starts
from 0 and sets the code to 3 whenever a non-skipped test has a failing
part. -/
def textTestExitCode (testCases : List TestCase) : Nat :=
  testCases.foldl
    (fun code tc =>
      if tc.skipped then code
      else if partFailedB tc.partOne || partFailedB tc.partTwo then 3 else code)
    0

/-- Bucket predicate: the test is reported as skipped. -/
def isSkippedTest (tc : TestCase) : Bool := tc.skipped

/-- Bucket predicate: the test ran and all of its parts passed. -/
def isPassedTest (tc : TestCase) : Bool := !tc.skipped && allPassedB tc

/-- Bucket predicate: the test ran and some part failed. -/
def isFailedTest (tc : TestCase) : Bool := !tc.skipped && !allPassedB tc

/-- Error shape surfaced to the CLI (`output.ts`, `ErrorInfo`): message plus
a zero-indexed source position. -/
structure ErrorInfo where
  message : String
  line : Nat
  column : Nat
deriving DecidableEq

/-- Location block of the JSON error output (`output.ts`, `ErrorLocation`),
one-indexed. -/
structure ErrorLocation where
  line : Nat
  column : Nat
deriving DecidableEq

/-- Stack frame of the JSON error output (`output.ts`, `StackFrame`). -/
structure StackFrame where
  function : String
  line : Nat
  column : Nat
deriving DecidableEq

/-- Top-level JSON error output (`output.ts`, `JsonErrorOutput`). -/
structure JsonErrorOutput where
  type : String
  message : String
  location : ErrorLocation
  stack : List StackFrame
deriving DecidableEq

/-- Embedding of `formatErrorJson` (`output.ts` lines 245-255): keep the
message, convert the zero-indexed position to one-indexed, no stack. -/
def formatErrorJson (error : ErrorInfo) : JsonErrorOutput :=
  { type := "error"
    message := error.message
    location := { line := error.line + 1, column := error.column + 1 }
    stack := [] }

/-- JavaScript `haystack.includes(needle)` on the underlying character
lists: test the needle as a prefix at every suffix position. -/
def jsIncludesFrom (need : List Char) : List Char → Bool
  | [] => need.isPrefixOf []
  | c :: rest => need.isPrefixOf (c :: rest) || jsIncludesFrom need rest

/-- JavaScript `source.includes(sub)`. -/
def jsIncludes (source sub : String) : Bool :=
  jsIncludesFrom sub.toList source.toList

/-- Return shape of `isSolutionSource` (`output.ts`). -/
structure SolutionFlags where
  hasPartOne : Bool
  hasPartTwo : Bool
deriving DecidableEq

/-- Embedding of `isSolutionSource` (`output.ts` lines 257-263): a raw
substring check for `part_one:` / `part_two:` over the source text. -/
def isSolutionSource (source : String) : SolutionFlags :=
  { hasPartOne := jsIncludes source "part_one:"
    hasPartTwo := jsIncludes source "part_two:" }

/-- The run-mode dispatch `isSolution = hasPartOne || hasPartTwo`
(`index.ts`). -/
def classifiesAsSolution (source : String) : Bool :=
  (isSolutionSource source).hasPartOne || (isSolutionSource source).hasPartTwo

/-- First character of an identifier per the lexer: alphabetic or
underscore. -/
def isIdentStart (c : Char) : Bool := c.isAlpha || c = '_'

/-- Subsequent identifier characters: alphanumeric or underscore. -/
def isIdentChar (c : Char) : Bool := c.isAlphanum || c = '_'

/-- Consume the remainder of a `//` line comment (the comment yields no
token). -/
def dropLineComment : List Char → List Char
  | [] => []
  | '\n' :: rest => rest
  | _ :: rest => dropLineComment rest

/-- Consume the remainder of a quote-delimited string literal, honouring
backslash escapes. -/
def dropStringLit : List Char → List Char
  | [] => []
  | '\\' :: rest =>
    match rest with
    | [] => []
    | _ :: rest2 => dropStringLit rest2
  | '"' :: rest => rest
  | _ :: rest => dropStringLit rest

/-- Modelled from the spec: the lexer and parser are not under `src/`
(only the CLI and the object-type interface are), so top-level Section
recognition is modelled from the specification's words — a line comment
`//` runs to end-of-line and yields no token, a string literal is
quote-delimited with backslash escapes, and a bare identifier directly
followed by `:` at statement position in the top-level statement list
(here: at brace depth zero, outside comments and strings) declares a
Section with that identifier as its name.  The fuel argument bounds the
recursion by the input length. -/
def scanSectionsGo : Nat → List Char → Nat → List String
  | 0, _, _ => []
  | fuel + 1, cs, depth =>
    match cs with
    | [] => []
    | '/' :: '/' :: rest => scanSectionsGo fuel (dropLineComment rest) depth
    | '"' :: rest => scanSectionsGo fuel (dropStringLit rest) depth
    | '{' :: rest => scanSectionsGo fuel rest (depth + 1)
    | '}' :: rest => scanSectionsGo fuel rest (depth - 1)
    | c :: rest =>
      if isIdentStart c then
        let name := String.mk (c :: rest.takeWhile isIdentChar)
        match rest.dropWhile isIdentChar with
        | ':' :: rest2 =>
          if depth = 0 then name :: scanSectionsGo fuel rest2 depth
          else scanSectionsGo fuel rest2 depth
        | rest2 => scanSectionsGo fuel rest2 depth
      else scanSectionsGo fuel rest depth

/-- Names of the Sections declared in the top-level statement list of a
source, per the specification's lexer/parser description. -/
def scanTopLevelSections (source : String) : List String :=
  scanSectionsGo (source.length + 1) source.toList 0

/-- Concrete source whose text contains `part_one:` only inside a string
literal: its top-level statement list is a single `let` plus an expression
statement, with no Section declaration. -/
def sourceWithPartOneInString : String :=
  "let greeting = \"part_one:\"; greeting"

/-- Result of the spawned `curl` process (`Bun.spawnSync` in io.ts). -/
structure CurlResult where
  exitCode : Int
  stdout : String
deriving DecidableEq

/-- External world visible to `readAoC` (io.ts): the readable files, the
`SANTA_CLI_SESSION_TOKEN` environment variable, and the download result. -/
structure AocWorld where
  cacheRead : String → Option String
  sessionToken : Option String
  curl : CurlResult

/-- JavaScript `s.padStart(n, c)`. -/
def padStart (s : String) (n : Nat) (c : Char) : String :=
  if n ≤ s.length then s
  else String.mk (List.replicate (n - s.length) c) ++ s

/-- The cache filename `aocYEAR_dayDD.input` built by `readAoC`. -/
def aocFilename (year day : String) : String :=
  "aoc" ++ year ++ "_day" ++ padStart day 2 '0' ++ ".input"

/-- JavaScript whitespace recognised by `trimEnd`. -/
def isJsWhitespace (c : Char) : Bool :=
  c = ' ' || c = '\t' || c = '\n' || c = '\r' || c = '\x0b' || c = '\x0c'

/-- JavaScript `content.trimEnd()`: drop trailing whitespace. -/
def trimEnd (s : String) : String :=
  String.mk ((s.toList.reverse.dropWhile isJsWhitespace).reverse)

/-- Outcome of `readAoC`: either the returned content together with the
cache write it performed (if any), or a thrown error message. -/
inductive AocOutcome where
  | ok (content : String) (cacheWrite : Option (String × String))
  | error (message : String)
deriving DecidableEq

/-- Embedding of `readAoC` (io.ts lines 27-59): serve the cache file when
readable; otherwise require the session token, spawn the download, and on
success cache and return the trailing-whitespace-trimmed body. -/
def readAoC (w : AocWorld) (year day path : String) : AocOutcome :=
  let filename := aocFilename year day
  match w.cacheRead filename with
  | some content => .ok content none
  | none =>
    match w.sessionToken with
    | none =>
        .error ("Unable to read AOC input: " ++ path ++
          ", missing session token within SANTA_CLI_SESSION_TOKEN environment variable")
    | some _ =>
      if w.curl.exitCode ≠ 0 then .error ("Unable to read AOC input: " ++ path)
      else
        let content := trimEnd w.curl.stdout
        .ok content (some (filename, content))

/-- Evaluation events performed by the test runner: evaluating a test
section's body, or evaluating a solution part for a test.  The index
identifies the test section (in declaration order). -/
inductive RunEvent where
  | evalBody (testIndex : Nat)
  | evalPart (testIndex : Nat) (partTwo : Bool)
deriving DecidableEq

/-- The test index an event belongs to. -/
def RunEvent.testIdx : RunEvent → Nat
  | .evalBody i => i
  | .evalPart i _ => i

/-- Modelled from the spec: the runner (`src/lang/src/runner/index.ts`) is
not under `src/` (only its unit tests are).  A test section's body
evaluates to the test's input together with the optional expected values
for `part_one` / `part_two` (spec §4.8); values are represented by their
`inspect` strings, which is what the runner compares. -/
structure TestBody where
  inputVal : String
  partOneExpected : Option String
  partTwoExpected : Option String

/-- Modelled from the spec: one `test` section of a solution source, with
its `@slow` annotation flag. -/
structure TestSectionDecl where
  slow : Bool
  body : TestBody

/-- Modelled from the spec: a parsed solution source as the runner sees
it — the optional `part_one` / `part_two` section bodies (as functions
from the test input's inspect string to the part result's inspect string)
and the `test` sections in declaration order. -/
structure SolutionSource where
  partOneImpl : Option (String → String)
  partTwoImpl : Option (String → String)
  tests : List TestSectionDecl

/-- Modelled from the spec: evaluate one solution part for a test.  A
comparison is produced when the solution declares the part and the test
body supplies an expected value; the actual result's inspect string is
compared against the expected one. -/
def runPartTest (impl : Option (String → String)) (expected : Option String)
    (inp : String) : Option TestCaseResult :=
  match impl, expected with
  | some f, some exp => some { expected := exp, actual := f inp, hasPassed := f inp == exp }
  | _, _ => none

/-- Modelled from the spec: run one test section.  A `@slow` test is
skipped unless slow tests were requested; a skipped test is reported (with
its flags) but neither its body nor any solution part is evaluated.  The
second component lists the evaluation events performed. -/
def runOneTest (src : SolutionSource) (includeSlow : Bool) (i : Nat)
    (t : TestSectionDecl) : TestCase × List RunEvent :=
  if t.slow && !includeSlow then
    ({ partOne := none, partTwo := none, slow := t.slow, skipped := true }, [])
  else
    let p1 := runPartTest src.partOneImpl t.body.partOneExpected t.body.inputVal
    let p2 := runPartTest src.partTwoImpl t.body.partTwoExpected t.body.inputVal
    ({ partOne := p1, partTwo := p2, slow := t.slow, skipped := false },
      RunEvent.evalBody i ::
        ((if p1.isSome then [RunEvent.evalPart i false] else []) ++
          (if p2.isSome then [RunEvent.evalPart i true] else [])))

/-- Modelled from the spec: run the test sections in declaration order,
numbering them from `i`. -/
def runTestsGo (src : SolutionSource) (includeSlow : Bool) :
    Nat → List TestSectionDecl → List TestCase × List RunEvent
  | _, [] => ([], [])
  | i, t :: rest =>
    let r := runOneTest src includeSlow i t
    let rs := runTestsGo src includeSlow (i + 1) rest
    (r.1 :: rs.1, r.2 ++ rs.2)

/-- Modelled from the spec: `runTests(source, io, includeSlow)` — one
result per `test` section in declaration order, together with the
evaluation events performed. -/
def runTests (src : SolutionSource) (includeSlow : Bool) :
    List TestCase × List RunEvent :=
  runTestsGo src includeSlow 0 src.tests

/-- Concrete solution source used to witness the runner theorems: a
`part_one` echoing its input, one fast test and one `@slow` test. -/
def sampleSource : SolutionSource :=
  { partOneImpl := some (fun s => s)
    partTwoImpl := none
    tests :=
      [ { slow := false, body := { inputVal := "1", partOneExpected := some "1", partTwoExpected := none } }
      , { slow := true, body := { inputVal := "2", partOneExpected := some "2", partTwoExpected := none } } ] }

/-- Modelled from the spec: the runtime value implementations (the
`hashCode` / `equals` methods behind `src/lang/src/evaluator/object/type.ts`)
are not under `src/` — only the `ValueObj` interface is.  The hashable
"Value" kinds are modelled from spec §3/§4.3: Integer (arbitrary
precision), Decimal (modelled as an exact rational), String, Boolean, Nil,
List, Dict, Set and Range (start, optional end, inclusive flag).  A Dict
is its entry list and a Set its element list, both in insertion order. -/
inductive Value where
  | intV (i : Int)
  | decV (q : Rat)
  | strV (s : String)
  | boolV (b : Bool)
  | nilV
  | rangeV (rstart : Int) (rstop : Option Int) (inclusive : Bool)
  | listV (xs : List Value)
  | dictV (entries : List (Value × Value))
  | setV (xs : List Value)

/-- Order-sensitive content hash of a string's characters. -/
def hashChars (cs : List Char) : Int :=
  cs.foldl (fun h c => 31 * h + (c.toNat : Int)) 3

mutual

/-- Modelled from the spec: the deterministic content hash of a value —
order-sensitive combination for List and String, order-insensitive
(summed) combination for Dict and Set (spec §4.3). -/
def hashValue : Value → Int
  | .intV i => 1 + 31 * i
  | .decV q => 2 + 31 * q.num + 17 * (q.den : Int)
  | .strV s => hashChars s.toList
  | .boolV b => if b then 4 else 5
  | .nilV => 6
  | .rangeV a ob incl =>
      7 + 31 * a + (match ob with | none => 11 | some e => 13 + 31 * e) +
        (if incl then 1 else 0)
  | .listV xs => 8 + hashListOrdered xs
  | .dictV es => 9 + hashEntriesSum es
  | .setV xs => 10 + hashSetSum xs

/-- Order-sensitive (positionally weighted) hash of a list's elements. -/
def hashListOrdered : List Value → Int
  | [] => 0
  | x :: xs => hashValue x + 31 * hashListOrdered xs

/-- Order-insensitive hash of a dict's entries: the sum of the entry
hashes. -/
def hashEntriesSum : List (Value × Value) → Int
  | [] => 0
  | (k, v) :: es => (31 * hashValue k + hashValue v) + hashEntriesSum es

/-- Order-insensitive hash of a set's elements: the sum of the element
hashes. -/
def hashSetSum : List Value → Int
  | [] => 0
  | x :: xs => hashValue x + hashSetSum xs

end

/-- Hash of a single dict entry. -/
def entryHash (e : Value × Value) : Int :=
  31 * hashValue e.1 + hashValue e.2

/-- Constructor tag, used to order values of different kinds. -/
def Value.ctorIdx : Value → Nat
  | .intV _ => 0
  | .decV _ => 1
  | .strV _ => 2
  | .boolV _ => 3
  | .nilV => 4
  | .rangeV _ _ _ => 5
  | .listV _ => 6
  | .dictV _ => 7
  | .setV _ => 8

/-- Three-way comparison derived from decidable equality and a decidable
order, with the property that it returns `eq` exactly on equal
arguments. -/
def cmpD {α : Type} [DecidableEq α] [LT α]
    [DecidableRel (fun a b : α => a < b)] (a b : α) : Ordering :=
  if a = b then .eq else if a < b then .lt else .gt

/-- Comparison of booleans. -/
def cmpBool : Bool → Bool → Ordering
  | false, false => .eq
  | false, true => .lt
  | true, false => .gt
  | true, true => .eq

/-- Comparison of optional range bounds. -/
def cmpOptionInt : Option Int → Option Int → Ordering
  | none, none => .eq
  | none, some _ => .lt
  | some _, none => .gt
  | some a, some b => cmpD a b

mutual

/-- A total syntactic comparison on values, used only to fix a canonical
order for Dict entries and Set elements. -/
def cmpValue : Value → Value → Ordering
  | .intV a, .intV b => cmpD a b
  | .decV a, .decV b => cmpD a b
  | .strV a, .strV b => cmpD a b
  | .boolV a, .boolV b => cmpBool a b
  | .nilV, .nilV => .eq
  | .rangeV a oa ia, .rangeV b ob ib =>
      (cmpD a b).then ((cmpOptionInt oa ob).then (cmpBool ia ib))
  | .listV a, .listV b => cmpValueList a b
  | .dictV a, .dictV b => cmpValueEntries a b
  | .setV a, .setV b => cmpValueList a b
  | a, b => cmpD a.ctorIdx b.ctorIdx

/-- Lexicographic comparison of value lists. -/
def cmpValueList : List Value → List Value → Ordering
  | [], [] => .eq
  | [], _ :: _ => .lt
  | _ :: _, [] => .gt
  | a :: as, b :: bs => (cmpValue a b).then (cmpValueList as bs)

/-- Lexicographic comparison of entry lists. -/
def cmpValueEntries : List (Value × Value) → List (Value × Value) → Ordering
  | [], [] => .eq
  | [], _ :: _ => .lt
  | _ :: _, [] => .gt
  | (k1, v1) :: as, (k2, v2) :: bs =>
      ((cmpValue k1 k2).then (cmpValue v1 v2)).then (cmpValueEntries as bs)

end

/-- The order used to canonicalise Set elements. -/
def valueLE (a b : Value) : Prop := cmpValue a b ≠ Ordering.gt

instance : DecidableRel valueLE := fun a b => by
  unfold valueLE
  infer_instance

/-- The order used to canonicalise Dict entries. -/
def entryLE (a b : Value × Value) : Prop :=
  ((cmpValue a.1 b.1).then (cmpValue a.2 b.2)) ≠ Ordering.gt

instance : DecidableRel entryLE := fun a b => by
  unfold entryLE
  infer_instance

mutual

/-- Canonical form of a value: children are canonicalised recursively and
Dict entries / Set elements are brought into a fixed order, so that two
values are structurally equal exactly when their canonical forms coincide
(insertion order being irrelevant for Dict and Set, spec §3/§4.3). -/
def canonValue : Value → Value
  | .intV i => .intV i
  | .decV q => .decV q
  | .strV s => .strV s
  | .boolV b => .boolV b
  | .nilV => .nilV
  | .rangeV a ob i => .rangeV a ob i
  | .listV xs => .listV (canonValueList xs)
  | .dictV es => .dictV (List.insertionSort entryLE (canonValueEntries es))
  | .setV xs => .setV (List.insertionSort valueLE (canonValueList xs))

/-- Canonicalise every element of a list. -/
def canonValueList : List Value → List Value
  | [] => []
  | x :: xs => canonValue x :: canonValueList xs

/-- Canonicalise every entry of a dict. -/
def canonValueEntries : List (Value × Value) → List (Value × Value)
  | [] => []
  | (k, v) :: es => (canonValue k, canonValue v) :: canonValueEntries es

end

/-- Modelled from the spec: structural equality of values, with insertion
order irrelevant for Dict and Set — two values are equal when their
canonical forms coincide (compared with the syntactic comparison). -/
def valueEquals (v w : Value) : Bool :=
  decide (cmpValue (canonValue v) (canonValue w) = Ordering.eq)

/-- Concrete dict built in one insertion order. -/
def sampleDictA : Value :=
  .dictV [(.intV 1, .strV "a"), (.intV 2, .strV "b")]

/-- The same dict built in the opposite insertion order. -/
def sampleDictB : Value :=
  .dictV [(.intV 2, .strV "b"), (.intV 1, .strV "a")]

/-! Theorems. -/

/-- Helper: in capture mode, a run of `output` calls appends exactly the
non-empty calls' entries to the buffer, stamped against the unchanged
capture start, and prints nothing. -/
theorem runOutputs_capture (calls : List (Int × List String)) :
    ∀ (start : Int) (pr : List String) (buf : List ConsoleEntry),
      runOutputs calls ⟨some buf, start, pr⟩ =
        ⟨some (buf ++ (calls.filter (fun c => !c.2.isEmpty)).map
            (fun c => ⟨c.1 - start, joinArgs c.2⟩)), start, pr⟩ := by
  induction calls with
  | nil => intro start pr buf; simp [runOutputs]
  | cons c rest ih =>
    intro start pr buf
    rw [runOutputs]
    cases he : c.2.isEmpty with
    | true =>
      rw [show output c.1 c.2 ⟨some buf, start, pr⟩ = ⟨some buf, start, pr⟩ from by
        simp [output, he]]
      rw [ih start pr buf]
      simp [List.filter_cons, he]
    | false =>
      rw [show output c.1 c.2 ⟨some buf, start, pr⟩
          = ⟨some (buf ++ [⟨c.1 - start, joinArgs c.2⟩]), start, pr⟩ from by
        simp [output, he]]
      rw [ih]
      simp [List.filter_cons, he]

/-- C3: a call of the injected I/O handle's `output` with an empty argument
list produces no observable event — the state (captured entries and printed
lines) is unchanged; with a non-empty argument list exactly one captured
entry (in capture mode) or one printed line (otherwise) is emitted, whose
message is the arguments joined by single spaces. -/
theorem output_event_characterisation (now : Int) (args : List String) (st : CliState) :
    (args = [] → output now args st = st) ∧
    (args ≠ [] → ∀ buf, st.consoleBuffer = some buf →
      output now args st = { st with consoleBuffer := some (buf ++ [⟨now - st.captureStartTime, joinArgs args⟩]) }) ∧
    (args ≠ [] → st.consoleBuffer = none →
      output now args st = { st with printed := st.printed ++ [joinArgs args] }) := by
  obtain ⟨cb, start, pr⟩ := st
  refine ⟨?_, ?_, ?_⟩
  · intro h
    subst h
    simp [output]
  · intro h buf hb
    simp only at hb
    subst hb
    simp [output, h]
  · intro h hb
    simp only at hb
    subst hb
    simp [output, h]

/-- Witness for C3 at concrete inputs. -/
theorem output_event_characterisation_witness :
    (([] : List String) = [] ∧ output 5 [] ⟨some [], 0, []⟩ = ⟨some [], 0, []⟩) ∧
    ((["a", "b"] : List String) ≠ [] ∧
      (⟨some [], 2, []⟩ : CliState).consoleBuffer = some [] ∧
      output 7 ["a", "b"] ⟨some [], 2, []⟩ = ⟨some [⟨5, "a b"⟩], 2, []⟩) := by
  refine ⟨⟨rfl, (output_event_characterisation 5 [] _).1 rfl⟩, by decide, rfl, ?_⟩
  have h := (output_event_characterisation 7 ["a", "b"] ⟨some [], 2, []⟩).2.1
    (by decide) [] rfl
  rw [h]
  decide

/-- C7: with a monotone clock that starts no earlier than the capture
start, the entries returned by `disableConsoleCapture` are exactly the
non-empty `output` calls' messages in call order, every timestamp (relative
to the capture start) is non-negative, and the timestamps are
non-decreasing. -/
theorem consoleCapture_order (t0 : Int) (calls : List (Int × List String)) (st0 : CliState)
    (hmono : calls.Pairwise (fun a b => a.1 ≤ b.1))
    (hstart : ∀ c ∈ calls, t0 ≤ c.1) :
    capturedEntries t0 calls st0 =
      (calls.filter (fun c => !c.2.isEmpty)).map (fun c => ⟨c.1 - t0, joinArgs c.2⟩) ∧
    (capturedEntries t0 calls st0).map ConsoleEntry.message =
      (calls.filter (fun c => !c.2.isEmpty)).map (fun c => joinArgs c.2) ∧
    (∀ e ∈ capturedEntries t0 calls st0, 0 ≤ e.timestamp_ms) ∧
    (capturedEntries t0 calls st0).Pairwise
      (fun a b => a.timestamp_ms ≤ b.timestamp_ms) := by
  obtain ⟨cb0, s0, p0⟩ := st0
  have hrun := runOutputs_capture calls t0 p0 []
  have hentries : capturedEntries t0 calls ⟨cb0, s0, p0⟩ =
      (calls.filter (fun c => !c.2.isEmpty)).map (fun c => ⟨c.1 - t0, joinArgs c.2⟩) := by
    unfold capturedEntries enableConsoleCapture disableConsoleCapture
    simp only
    rw [hrun]
    simp
  refine ⟨hentries, ?_, ?_, ?_⟩
  · rw [hentries, List.map_map]
    rfl
  · intro e he
    rw [hentries] at he
    simp only [List.mem_map, List.mem_filter] at he
    obtain ⟨c, ⟨hc, _⟩, rfl⟩ := he
    have := hstart c hc
    simp only
    omega
  · rw [hentries]
    rw [List.pairwise_map]
    exact (hmono.filter _).imp (fun h => by simp only; omega)

/-- Witness for C7 at concrete inputs: two timed calls, the second with no
arguments. -/
theorem consoleCapture_order_witness :
    ([((3 : Int), ["x"]), (4, []), (6, ["y", "z"])].Pairwise
        (fun a b => a.1 ≤ b.1) ∧
      (∀ c ∈ [((3 : Int), ["x"]), (4, []), (6, ["y", "z"])], (2 : Int) ≤ c.1)) ∧
    capturedEntries 2 [(3, ["x"]), (4, []), (6, ["y", "z"])] ⟨none, 0, []⟩ =
      [⟨1, joinArgs ["x"]⟩, ⟨4, joinArgs ["y", "z"]⟩] := by
  constructor
  · constructor
    · decide
    · decide
  · have h := (consoleCapture_order 2 [(3, ["x"]), (4, []), (6, ["y", "z"])]
      ⟨none, 0, []⟩ (by decide) (by decide)).1
    rw [h]
    rfl

/-- C4: `formatErrorJson` always reports type `error`, preserves the
message, and converts the zero-indexed position to one-indexed; in
particular an error at zero-indexed line 0, column 2 — as produced for
`1 * "x"` — surfaces at line 1, column 3. -/
theorem formatErrorJson_spec (e : ErrorInfo) :
    (formatErrorJson e).type = "error" ∧
    (formatErrorJson e).message = e.message ∧
    (formatErrorJson e).location.line = e.line + 1 ∧
    (formatErrorJson e).location.column = e.column + 1 ∧
    (formatErrorJson e).stack = [] ∧
    (∀ m : String, (formatErrorJson ⟨m, 0, 2⟩).location = ⟨1, 3⟩) :=
  ⟨rfl, rfl, rfl, rfl, rfl, fun _ => rfl⟩

/-- Helper: the counters threaded through `formatTestsGo` count the three
buckets, and one JSON test object is produced per test case. -/
theorem formatTestsGo_counts (h1 h2 : Bool) (l : List TestCase) :
    ∀ (i p f s : Nat),
      (formatTestsGo h1 h2 l i p f s).2.1 = p + l.countP isPassedTest ∧
      (formatTestsGo h1 h2 l i p f s).2.2.1 = f + l.countP isFailedTest ∧
      (formatTestsGo h1 h2 l i p f s).2.2.2 = s + l.countP isSkippedTest ∧
      (formatTestsGo h1 h2 l i p f s).1.length = l.length := by
  induction l with
  | nil => intro i p f s; simp [formatTestsGo]
  | cons tc rest ih =>
    intro i p f s
    cases hs : tc.skipped with
    | true =>
      simp only [formatTestsGo, hs, if_true]
      obtain ⟨cp, cf, cs, cl⟩ := ih (i + 1) p f (s + 1)
      simp [cp, cf, cs, cl, List.countP_cons, isPassedTest, isFailedTest, isSkippedTest, hs]
      omega
    | false =>
      cases ha : allPassedB tc with
      | true =>
        simp only [formatTestsGo, hs, ha, if_false, if_true, Bool.false_eq_true, ite_false, ite_true]
        obtain ⟨cp, cf, cs, cl⟩ := ih (i + 1) (p + 1) f s
        simp [cp, cf, cs, cl, List.countP_cons, isPassedTest, isFailedTest, isSkippedTest, hs, ha]
        omega
      | false =>
        simp only [formatTestsGo, hs, ha, Bool.false_eq_true, ite_false]
        obtain ⟨cp, cf, cs, cl⟩ := ih (i + 1) p (f + 1) s
        simp [cp, cf, cs, cl, List.countP_cons, isPassedTest, isFailedTest, isSkippedTest, hs, ha]
        omega

/-- Helper: a test case falls in exactly one of the three buckets. -/
theorem bucket_partition (tc : TestCase) :
    (if isSkippedTest tc then 1 else 0) + (if isPassedTest tc then 1 else 0) +
      (if isFailedTest tc then 1 else 0) = 1 := by
  unfold isSkippedTest isPassedTest isFailedTest
  cases tc.skipped <;> cases allPassedB tc <;> simp

/-- Helper: the three bucket counts sum to the list length. -/
theorem countP_buckets (l : List TestCase) :
    l.countP isPassedTest + l.countP isFailedTest + l.countP isSkippedTest = l.length := by
  induction l with
  | nil => simp
  | cons tc rest ih =>
    have hb := bucket_partition tc
    simp only [List.countP_cons, List.length_cons]
    omega

/-- Helper: the failing-part check of the exit-code path coincides with the
failed bucket of `formatTestJson`. -/
theorem testCaseFailsB_eq (tc : TestCase) : testCaseFailsB tc = isFailedTest tc := by
  obtain ⟨p1, p2, sl, sk⟩ := tc
  cases p1 <;> cases p2 <;>
    simp [testCaseFailsB, isFailedTest, partFailedB, allPassedB, partOnePassedB, partTwoPassedB]

/-- Helper: an optional part fails exactly when it is present with a failed
comparison. -/
theorem partFailedB_iff (o : Option TestCaseResult) :
    partFailedB o = true ↔ ∃ r, o = some r ∧ r.hasPassed = false := by
  cases o <;> simp [partFailedB]

/-- Helper: the text-mode exit loop computes the same code as the JSON-mode
`some` check. -/
theorem textTestExitCode_eq (testCases : List TestCase) :
    textTestExitCode testCases = jsonTestExitCode testCases := by
  have step : ∀ (code : Nat) (tc : TestCase),
      (if tc.skipped then code
       else if partFailedB tc.partOne || partFailedB tc.partTwo then 3 else code) =
      (if testCaseFailsB tc then 3 else code) := by
    intro code tc
    unfold testCaseFailsB
    cases hs : tc.skipped <;> cases hf : partFailedB tc.partOne || partFailedB tc.partTwo <;> simp [hs, hf]
  have go : ∀ (l : List TestCase) (code : Nat),
      l.foldl (fun code tc =>
        if tc.skipped then code
        else if partFailedB tc.partOne || partFailedB tc.partTwo then 3 else code) code =
      if l.any testCaseFailsB then 3 else code := by
    intro l
    induction l with
    | nil => intro code; simp
    | cons tc rest ih =>
      intro code
      rw [List.foldl_cons, step, ih]
      cases hf : testCaseFailsB tc <;> simp [hf, List.any_cons]
  rw [textTestExitCode, jsonTestExitCode, go]

/-- C2: the CLI test run exits 3 exactly when some non-skipped test has a
part whose comparison failed, and exits 0 exactly when every non-skipped
test passes; the JSON output's `success` is true exactly when its `failed`
count is 0, which coincides with exiting 0; text and JSON modes agree. -/
theorem testExitCode_spec (testCases : List TestCase) (h1 h2 : Bool)
    (console : List ConsoleEntry) :
    (jsonTestExitCode testCases = 3 ↔
      ∃ tc ∈ testCases, tc.skipped = false ∧
        ((∃ r, tc.partOne = some r ∧ r.hasPassed = false) ∨
          (∃ r, tc.partTwo = some r ∧ r.hasPassed = false))) ∧
    (jsonTestExitCode testCases = 0 ↔
      ∀ tc ∈ testCases, tc.skipped = false →
        (∀ r, tc.partOne = some r → r.hasPassed = true) ∧
        (∀ r, tc.partTwo = some r → r.hasPassed = true)) ∧
    ((formatTestJson testCases h1 h2 console).success = true ↔
      (formatTestJson testCases h1 h2 console).summary.failed = 0) ∧
    ((formatTestJson testCases h1 h2 console).success = true ↔
      jsonTestExitCode testCases = 0) ∧
    textTestExitCode testCases = jsonTestExitCode testCases := by
  have hfails : ∀ tc : TestCase, testCaseFailsB tc = true ↔
      (tc.skipped = false ∧
        ((∃ r, tc.partOne = some r ∧ r.hasPassed = false) ∨
          (∃ r, tc.partTwo = some r ∧ r.hasPassed = false))) := by
    intro tc
    rw [testCaseFailsB]
    rw [Bool.and_eq_true, Bool.or_eq_true, Bool.not_eq_true']
    rw [partFailedB_iff, partFailedB_iff]
  have hany : testCases.any testCaseFailsB = true ↔
      ∃ tc ∈ testCases, tc.skipped = false ∧
        ((∃ r, tc.partOne = some r ∧ r.hasPassed = false) ∨
          (∃ r, tc.partTwo = some r ∧ r.hasPassed = false)) := by
    rw [List.any_eq_true]
    constructor
    · rintro ⟨tc, htc, hf⟩
      exact ⟨tc, htc, (hfails tc).mp hf⟩
    · rintro ⟨tc, htc, hf⟩
      exact ⟨tc, htc, (hfails tc).mpr hf⟩
  have hfailed : (formatTestJson testCases h1 h2 console).summary.failed =
      testCases.countP isFailedTest :=
    by simpa using (formatTestsGo_counts h1 h2 testCases 0 0 0 0).2.1
  have hsuccess : (formatTestJson testCases h1 h2 console).success =
      ((formatTestJson testCases h1 h2 console).summary.failed == 0) := rfl
  refine ⟨?_, ?_, ?_, ?_, textTestExitCode_eq testCases⟩
  · rw [jsonTestExitCode]
    cases hc : testCases.any testCaseFailsB with
    | true => simp only [if_true]; simpa [hc] using hany
    | false =>
      simp only [Bool.false_eq_true, ite_false]
      rw [hc] at hany
      constructor
      · intro h
        exact absurd h (by decide)
      · intro hex
        exact absurd (hany.mpr hex) (by simp)
  · rw [jsonTestExitCode]
    cases hc : testCases.any testCaseFailsB with
    | true =>
      simp only [if_true]
      rw [hc] at hany
      constructor
      · intro h
        exact absurd h (by decide)
      intro hall
      obtain ⟨tc, htc, hsk, hor⟩ := hany.mp rfl
      obtain ⟨hp1, hp2⟩ := hall tc htc hsk
      rcases hor with ⟨r, hr, hfz⟩ | ⟨r, hr, hfz⟩
      · rw [hp1 r hr] at hfz; exact absurd hfz (by simp)
      · rw [hp2 r hr] at hfz; exact absurd hfz (by simp)
    | false =>
      simp only [Bool.false_eq_true, ite_false, true_iff]
      intro tc htc hsk
      have hnf : testCaseFailsB tc = false := by
        cases hb : testCaseFailsB tc with
        | false => rfl
        | true =>
          have : testCases.any testCaseFailsB = true := List.any_eq_true.mpr ⟨tc, htc, hb⟩
          rw [this] at hc; cases hc
      have := (hfails tc)
      constructor
      · intro r hr
        cases hp : r.hasPassed with
        | true => rfl
        | false =>
          have : testCaseFailsB tc = true := this.mpr ⟨hsk, Or.inl ⟨r, hr, hp⟩⟩
          rw [this] at hnf; cases hnf
      · intro r hr
        cases hp : r.hasPassed with
        | true => rfl
        | false =>
          have : testCaseFailsB tc = true := this.mpr ⟨hsk, Or.inr ⟨r, hr, hp⟩⟩
          rw [this] at hnf; cases hnf
  · rw [hsuccess]
    simp [Nat.beq_eq_true_eq]
  · rw [hsuccess, hfailed, jsonTestExitCode]
    cases hc : testCases.any testCaseFailsB with
    | true =>
      simp only [if_true]
      obtain ⟨tc, htc, hb⟩ := List.any_eq_true.mp hc
      have hft : isFailedTest tc = true := by rw [← testCaseFailsB_eq]; exact hb
      have hpos : 0 < testCases.countP isFailedTest :=
        List.countP_pos_iff.mpr ⟨tc, htc, hft⟩
      constructor
      · intro hb0
        rw [beq_iff_eq] at hb0
        omega
      · intro h
        exact absurd h (by decide)
    | false =>
      simp only [Bool.false_eq_true, ite_false]
      have hz : testCases.countP isFailedTest = 0 := by
        rw [List.countP_eq_zero]
        intro tc htc
        cases hb : isFailedTest tc with
        | false => simp
        | true =>
          have : testCaseFailsB tc = true := by rw [testCaseFailsB_eq]; exact hb
          have : testCases.any testCaseFailsB = true := List.any_eq_true.mpr ⟨tc, htc, this⟩
          rw [this] at hc; cases hc
      simp [hz]

/-- Witness for C2: a single non-skipped test with a failing part one makes
the run exit 3. -/
theorem testExitCode_spec_witness :
    jsonTestExitCode [⟨some ⟨"42", "99", false⟩, none, false, false⟩] = 3 :=
  (testExitCode_spec [⟨some ⟨"42", "99", false⟩, none, false, false⟩] true false []).1.mpr
    ⟨⟨some ⟨"42", "99", false⟩, none, false, false⟩, by decide, rfl,
      Or.inl ⟨⟨"42", "99", false⟩, rfl, rfl⟩⟩

/-- C9: `formatTestJson` partitions the test cases — the summary's three
buckets count every test exactly once and sum to the total, which is the
number of test cases; one JSON test entry is produced per test case. -/
theorem formatTestJson_partition (testCases : List TestCase) (h1 h2 : Bool)
    (console : List ConsoleEntry) :
    (formatTestJson testCases h1 h2 console).summary.passed +
        (formatTestJson testCases h1 h2 console).summary.failed +
        (formatTestJson testCases h1 h2 console).summary.skipped =
      (formatTestJson testCases h1 h2 console).summary.total ∧
    (formatTestJson testCases h1 h2 console).summary.total = testCases.length ∧
    (formatTestJson testCases h1 h2 console).summary.passed =
      testCases.countP isPassedTest ∧
    (formatTestJson testCases h1 h2 console).summary.failed =
      testCases.countP isFailedTest ∧
    (formatTestJson testCases h1 h2 console).summary.skipped =
      testCases.countP isSkippedTest ∧
    (formatTestJson testCases h1 h2 console).tests.length = testCases.length ∧
    (∀ tc : TestCase,
      (if isSkippedTest tc then 1 else 0) + (if isPassedTest tc then 1 else 0) +
        (if isFailedTest tc then 1 else 0) = 1) := by
  obtain ⟨cp, cf, cs, cl⟩ := formatTestsGo_counts h1 h2 testCases 0 0 0 0
  have hp : (formatTestJson testCases h1 h2 console).summary.passed =
      testCases.countP isPassedTest := by simpa using cp
  have hf : (formatTestJson testCases h1 h2 console).summary.failed =
      testCases.countP isFailedTest := by simpa using cf
  have hs : (formatTestJson testCases h1 h2 console).summary.skipped =
      testCases.countP isSkippedTest := by simpa using cs
  have hl : (formatTestJson testCases h1 h2 console).tests.length =
      testCases.length := by simpa using cl
  have htot : (formatTestJson testCases h1 h2 console).summary.total =
      testCases.length := rfl
  exact ⟨by rw [hp, hf, hs, htot]; exact countP_buckets testCases,
    htot, hp, hf, hs, hl, bucket_partition⟩

/-- C10: a non-skipped test with no expectations (both parts absent) is
treated as passing — it is counted in the passed bucket, leaves the failed
count, the `success` flag and both exit codes unchanged, and `allPassed`
holds for it. -/
theorem noExpectations_counted_passed (h1 h2 : Bool) (console : List ConsoleEntry)
    (pre post : List TestCase) (tc : TestCase)
    (hs : tc.skipped = false) (hp1 : tc.partOne = none) (hp2 : tc.partTwo = none) :
    allPassedB tc = true ∧
    (formatTestJson (pre ++ tc :: post) h1 h2 console).summary.passed =
      (formatTestJson (pre ++ post) h1 h2 console).summary.passed + 1 ∧
    (formatTestJson (pre ++ tc :: post) h1 h2 console).summary.failed =
      (formatTestJson (pre ++ post) h1 h2 console).summary.failed ∧
    (formatTestJson (pre ++ tc :: post) h1 h2 console).success =
      (formatTestJson (pre ++ post) h1 h2 console).success ∧
    jsonTestExitCode (pre ++ tc :: post) = jsonTestExitCode (pre ++ post) ∧
    textTestExitCode (pre ++ tc :: post) = textTestExitCode (pre ++ post) := by
  have hall : allPassedB tc = true := by
    rw [allPassedB, partOnePassedB, partTwoPassedB, hp1, hp2]
    rfl
  have hpassed : isPassedTest tc = true := by
    rw [isPassedTest, hs, hall]
    rfl
  have hfailed : isFailedTest tc = false := by
    rw [isFailedTest, hs, hall]
    rfl
  have hnofail : testCaseFailsB tc = false := by rw [testCaseFailsB_eq]; exact hfailed
  have cpL := (formatTestsGo_counts h1 h2 (pre ++ tc :: post) 0 0 0 0)
  have cpR := (formatTestsGo_counts h1 h2 (pre ++ post) 0 0 0 0)
  have hpL : (formatTestJson (pre ++ tc :: post) h1 h2 console).summary.passed =
      (pre ++ tc :: post).countP isPassedTest := by simpa using cpL.1
  have hpR : (formatTestJson (pre ++ post) h1 h2 console).summary.passed =
      (pre ++ post).countP isPassedTest := by simpa using cpR.1
  have hfL : (formatTestJson (pre ++ tc :: post) h1 h2 console).summary.failed =
      (pre ++ tc :: post).countP isFailedTest := by simpa using cpL.2.1
  have hfR : (formatTestJson (pre ++ post) h1 h2 console).summary.failed =
      (pre ++ post).countP isFailedTest := by simpa using cpR.2.1
  have hfeq : (pre ++ tc :: post).countP isFailedTest =
      (pre ++ post).countP isFailedTest := by
    simp [List.countP_append, List.countP_cons, hfailed]
  have hjson : jsonTestExitCode (pre ++ tc :: post) = jsonTestExitCode (pre ++ post) := by
    rw [jsonTestExitCode, jsonTestExitCode]
    simp [List.any_append, List.any_cons, hnofail]
  refine ⟨hall, ?_, ?_, ?_, hjson, ?_⟩
  · rw [hpL, hpR]
    simp [List.countP_append, List.countP_cons, hpassed]
    omega
  · rw [hfL, hfR, hfeq]
  · show ((formatTestJson (pre ++ tc :: post) h1 h2 console).summary.failed == 0) =
      ((formatTestJson (pre ++ post) h1 h2 console).summary.failed == 0)
    rw [hfL, hfR, hfeq]
  · rw [textTestExitCode_eq, textTestExitCode_eq, hjson]

/-- Witness for C10 at a concrete no-expectation test case. -/
theorem noExpectations_counted_passed_witness :
    ((⟨none, none, false, false⟩ : TestCase).skipped = false ∧
      (⟨none, none, false, false⟩ : TestCase).partOne = none ∧
      (⟨none, none, false, false⟩ : TestCase).partTwo = none) ∧
    (formatTestJson [⟨none, none, false, false⟩] true true []).summary.passed =
      (formatTestJson [] true true []).summary.passed + 1 :=
  ⟨⟨rfl, rfl, rfl⟩,
    (noExpectations_counted_passed true true [] [] [] ⟨none, none, false, false⟩
      rfl rfl rfl).2.1⟩

/-- C6: `readAoC` serves a readable cache file as-is (performing no write);
on a cache miss it fails exactly when the session token is unset or the
download fails; a successful download returns the trailing-whitespace
trimmed content, which it also writes to the cache file; the cache filename
zero-pads the day to two digits. -/
theorem readAoC_spec (w : AocWorld) (year day path : String) :
    (∀ c, w.cacheRead (aocFilename year day) = some c →
      readAoC w year day path = .ok c none) ∧
    (w.cacheRead (aocFilename year day) = none →
      ((∃ m, readAoC w year day path = .error m) ↔
        (w.sessionToken = none ∨ w.curl.exitCode ≠ 0))) ∧
    (∀ t, w.cacheRead (aocFilename year day) = none → w.sessionToken = some t →
      w.curl.exitCode = 0 →
      readAoC w year day path =
        .ok (trimEnd w.curl.stdout) (some (aocFilename year day, trimEnd w.curl.stdout))) ∧
    aocFilename "2015" "5" = "aoc2015_day05.input" ∧
    aocFilename "2015" "25" = "aoc2015_day25.input" := by
  refine ⟨?_, ?_, ?_, by decide, by decide⟩
  · intro c hc
    simp [readAoC, hc]
  · intro hc
    cases ht : w.sessionToken with
    | none => simp [readAoC, hc, ht]
    | some t =>
      by_cases he : w.curl.exitCode = 0
      · simp [readAoC, hc, ht, he]
      · simp [readAoC, hc, ht, he]
  · intro t hc ht he
    simp [readAoC, hc, ht, he]

/-- Witness for C6: a cache miss with a token and a successful download
returns and caches the trimmed content. -/
theorem readAoC_spec_witness :
    ((⟨fun _ => none, some "tok", ⟨0, "data\n"⟩⟩ : AocWorld).cacheRead
        (aocFilename "2015" "5") = none ∧
      (⟨fun _ => none, some "tok", ⟨0, "data\n"⟩⟩ : AocWorld).sessionToken = some "tok" ∧
      (⟨fun _ => none, some "tok", ⟨0, "data\n"⟩⟩ : AocWorld).curl.exitCode = 0) ∧
    readAoC ⟨fun _ => none, some "tok", ⟨0, "data\n"⟩⟩ "2015" "5" "aoc://2015/5" =
      .ok "data" (some ("aoc2015_day05.input", "data")) := by
  refine ⟨⟨rfl, rfl, rfl⟩, ?_⟩
  have h := (readAoC_spec ⟨fun _ => none, some "tok", ⟨0, "data\n"⟩⟩
    "2015" "5" "aoc://2015/5").2.2.1 "tok" rfl rfl rfl
  rw [h]
  decide

/-- Helper: the character-list scan of `String.prototype.includes` decides
list containment. -/
theorem jsIncludesFrom_iff (need : List Char) :
    ∀ h, jsIncludesFrom need h = true ↔ need <:+: h := by
  intro h
  induction h with
  | nil =>
    rw [jsIncludesFrom]
    rw [List.isPrefixOf_iff_prefix]
    rw [List.prefix_nil, List.infix_nil]
  | cons c rest ih =>
    rw [jsIncludesFrom]
    rw [Bool.or_eq_true, List.isPrefixOf_iff_prefix, ih]
    exact (List.infix_cons_iff).symm

/-- C5 (amended): the CLI classifies a source as a solution exactly when
the source text contains the substring `part_one:` or `part_two:` — a raw
textual check, not a check of the parsed top-level statement list. -/
theorem classifiesAsSolution_iff_substring (source : String) :
    classifiesAsSolution source = true ↔
      (("part_one:").toList <:+: source.toList ∨
        ("part_two:").toList <:+: source.toList) := by
  rw [classifiesAsSolution, isSolutionSource]
  rw [Bool.or_eq_true]
  rw [jsIncludes, jsIncludes, jsIncludesFrom_iff, jsIncludesFrom_iff]

/-- Witness for the amended C5: a genuine solution source is classified as
one. -/
theorem classifiesAsSolution_iff_substring_witness :
    classifiesAsSolution "part_one: 1" = true :=
  (classifiesAsSolution_iff_substring "part_one: 1").mpr (Or.inl (by decide))

/-- C5 (counterexample): on a source whose text mentions `part_one:` only
inside a string literal, the CLI's classification says "solution" although
the top-level statement list declares no `part_one` or `part_two`
Section — the claimed equivalence fails. -/
theorem isSolutionSource_claim_counterexample :
    ¬ (classifiesAsSolution sourceWithPartOneInString = true ↔
        ("part_one" ∈ scanTopLevelSections sourceWithPartOneInString ∨
          "part_two" ∈ scanTopLevelSections sourceWithPartOneInString)) := by
  decide

/-- Helper: a run of one test carries the test's `slow` flag and is skipped
exactly when the test is slow and slow tests were not requested. -/
theorem runOneTest_flags (src : SolutionSource) (b : Bool) (i : Nat)
    (t : TestSectionDecl) :
    (runOneTest src b i t).1.slow = t.slow ∧
    (runOneTest src b i t).1.skipped = (t.slow && !b) := by
  unfold runOneTest
  cases h : t.slow && !b with
  | true => exact ⟨rfl, rfl⟩
  | false => exact ⟨rfl, rfl⟩

/-- Helper: a skipped test produces no comparisons and no evaluation
events. -/
theorem runOneTest_skipped_empty (src : SolutionSource) (b : Bool) (i : Nat)
    (t : TestSectionDecl) (h : (t.slow && !b) = true) :
    (runOneTest src b i t).1.partOne = none ∧
    (runOneTest src b i t).1.partTwo = none ∧
    (runOneTest src b i t).2 = [] := by
  unfold runOneTest
  rw [if_pos h]
  exact ⟨rfl, rfl, rfl⟩

/-- Helper: every evaluation event of one test run carries that test's
index. -/
theorem runOneTest_events_idx (src : SolutionSource) (b : Bool) (i : Nat)
    (t : TestSectionDecl) : ∀ ev ∈ (runOneTest src b i t).2, ev.testIdx = i := by
  intro ev hev
  cases h : t.slow && !b with
  | true =>
    rw [(runOneTest_skipped_empty src b i t h).2.2] at hev
    cases hev
  | false =>
    rw [runOneTest] at hev
    rw [h] at hev
    simp only [Bool.false_eq_true, ite_false, List.mem_cons, List.mem_append] at hev
    rcases hev with rfl | hev | hev
    · rfl
    · split at hev
      · simp only [List.mem_singleton] at hev
        rw [hev]
        rfl
      · cases hev
    · split at hev
      · simp only [List.mem_singleton] at hev
        rw [hev]
        rfl
      · cases hev

/-- Helper: `runTestsGo` produces one result per test section. -/
theorem runTestsGo_length (src : SolutionSource) (b : Bool) :
    ∀ (l : List TestSectionDecl) (i0 : Nat),
      (runTestsGo src b i0 l).1.length = l.length := by
  intro l
  induction l with
  | nil => intro i0; rfl
  | cons t rest ih =>
    intro i0
    rw [runTestsGo]
    simp only [List.length_cons]
    rw [ih (i0 + 1)]

/-- Helper: the `k`-th result of `runTestsGo` numbered from `i0` is the run
of the `k`-th test section with index `i0 + k`. -/
theorem runTestsGo_get (src : SolutionSource) (b : Bool) :
    ∀ (l : List TestSectionDecl) (i0 k : Nat) (hk : k < l.length)
      (hk2 : k < (runTestsGo src b i0 l).1.length),
      (runTestsGo src b i0 l).1.get ⟨k, hk2⟩ =
        (runOneTest src b (i0 + k) (l.get ⟨k, hk⟩)).1 := by
  intro l
  induction l with
  | nil =>
    intro i0 k hk
    cases hk
  | cons t rest ih =>
    intro i0 k hk hk2
    cases k with
    | zero => rfl
    | succ k =>
      have hk' : k < rest.length := Nat.lt_of_succ_lt_succ hk
      have hk2' : k < (runTestsGo src b (i0 + 1) rest).1.length := by
        rw [runTestsGo_length src b rest (i0 + 1)]
        exact hk'
      have hstep : (runTestsGo src b i0 (t :: rest)).1.get ⟨k + 1, hk2⟩ =
          (runTestsGo src b (i0 + 1) rest).1.get ⟨k, hk2'⟩ := rfl
      rw [hstep, ih (i0 + 1) k hk' hk2']
      rw [show i0 + 1 + k = i0 + (k + 1) from by omega]
      rfl

/-- Helper: every event of `runTestsGo` numbered from `i0` has index at
least `i0`. -/
theorem runTestsGo_events_lb (src : SolutionSource) (b : Bool) :
    ∀ (l : List TestSectionDecl) (i0 : Nat) (ev : RunEvent),
      ev ∈ (runTestsGo src b i0 l).2 → i0 ≤ ev.testIdx := by
  intro l
  induction l with
  | nil =>
    intro i0 ev hev
    cases hev
  | cons t rest ih =>
    intro i0 ev hev
    rw [runTestsGo] at hev
    simp only [List.mem_append] at hev
    rcases hev with hev | hev
    · rw [runOneTest_events_idx src b i0 t ev hev]
    · have := ih (i0 + 1) ev hev
      omega

/-- Helper: when the `k`-th test section (numbered from `i0`) is skipped,
the run performs no evaluation event with its index. -/
theorem runTestsGo_skipped_noevents (src : SolutionSource) (b : Bool) :
    ∀ (l : List TestSectionDecl) (i0 k : Nat) (hk : k < l.length),
      ((l.get ⟨k, hk⟩).slow && !b) = true →
      (runTestsGo src b i0 l).2.filter (fun ev => ev.testIdx == i0 + k) = [] := by
  intro l
  induction l with
  | nil =>
    intro i0 k hk
    cases hk
  | cons t rest ih =>
    intro i0 k hk hs
    rw [runTestsGo]
    rw [List.filter_append]
    cases k with
    | zero =>
      have ht : (runOneTest src b i0 t).2 = [] :=
        (runOneTest_skipped_empty src b i0 t hs).2.2
      rw [ht]
      simp only [List.filter_nil, List.nil_append]
      rw [List.filter_eq_nil_iff]
      intro ev hev
      have hlb := runTestsGo_events_lb src b rest (i0 + 1) ev hev
      simp only [beq_iff_eq]
      omega
    | succ k =>
      have hk' : k < rest.length := Nat.lt_of_succ_lt_succ hk
      have h1 : (runOneTest src b i0 t).2.filter
          (fun ev => ev.testIdx == i0 + (k + 1)) = [] := by
        rw [List.filter_eq_nil_iff]
        intro ev hev
        rw [runOneTest_events_idx src b i0 t ev hev]
        simp only [beq_iff_eq]
        omega
      have h2 := ih (i0 + 1) k hk' hs
      rw [h1, List.nil_append]
      rw [show i0 + (k + 1) = (i0 + 1) + k from by omega]
      exact h2

/-- C1: `runTests` returns one result per test section in declaration
order (skipped tests included); a result is flagged `slow` exactly when its
section is annotated `@slow` and `skipped` exactly when it is slow and slow
tests were not requested; a skipped test has no part comparisons and no
evaluation event (neither its body nor any solution part is evaluated). -/
theorem runTests_spec (src : SolutionSource) (includeSlow : Bool) :
    (runTests src includeSlow).1.length = src.tests.length ∧
    (∀ (i : Nat) (h1 : i < (runTests src includeSlow).1.length)
        (h2 : i < src.tests.length),
      ((runTests src includeSlow).1.get ⟨i, h1⟩).slow =
        (src.tests.get ⟨i, h2⟩).slow ∧
      ((runTests src includeSlow).1.get ⟨i, h1⟩).skipped =
        ((src.tests.get ⟨i, h2⟩).slow && !includeSlow) ∧
      (((runTests src includeSlow).1.get ⟨i, h1⟩).skipped = true →
        ((runTests src includeSlow).1.get ⟨i, h1⟩).partOne = none ∧
        ((runTests src includeSlow).1.get ⟨i, h1⟩).partTwo = none ∧
        (runTests src includeSlow).2.filter (fun ev => ev.testIdx == i) = [])) := by
  constructor
  · exact runTestsGo_length src includeSlow src.tests 0
  · intro i h1 h2
    have hget : (runTests src includeSlow).1.get ⟨i, h1⟩ =
        (runOneTest src includeSlow (0 + i) (src.tests.get ⟨i, h2⟩)).1 :=
      runTestsGo_get src includeSlow src.tests 0 i h2 h1
    rw [hget]
    obtain ⟨hslow, hskip⟩ :=
      runOneTest_flags src includeSlow (0 + i) (src.tests.get ⟨i, h2⟩)
    refine ⟨hslow, hskip, ?_⟩
    intro hsk
    rw [hskip] at hsk
    obtain ⟨hp1, hp2, _⟩ :=
      runOneTest_skipped_empty src includeSlow (0 + i) (src.tests.get ⟨i, h2⟩) hsk
    refine ⟨hp1, hp2, ?_⟩
    have := runTestsGo_skipped_noevents src includeSlow src.tests 0 i h2 hsk
    simpa using this

/-- Witness for C1 on `sampleSource` without slow tests: the second (slow)
test is reported skipped with no comparisons, and no evaluation event
carries its index. -/
theorem runTests_spec_witness :
    (1 < (runTests sampleSource false).1.length ∧ 1 < sampleSource.tests.length) ∧
    ((runTests sampleSource false).1.get ⟨1, by decide⟩).skipped = true ∧
    ((runTests sampleSource false).1.get ⟨1, by decide⟩).partOne = none ∧
    (runTests sampleSource false).2.filter (fun ev => ev.testIdx == 1) = [] := by
  have h := (runTests_spec sampleSource false).2 1 (by decide) (by decide)
  exact ⟨⟨by decide, by decide⟩, by decide, by decide, (h.2.2 (by decide)).2.2⟩

/-- Helper: `cmpD` answers `eq` exactly on equal arguments. -/
theorem cmpD_eq_iff {α : Type} [DecidableEq α] [LT α]
    [DecidableRel (fun a b : α => a < b)] (a b : α) :
    cmpD a b = Ordering.eq ↔ a = b := by
  unfold cmpD
  split
  · simp_all
  · split <;> simp_all

/-- Helper: `cmpBool` answers `eq` exactly on equal booleans. -/
theorem cmpBool_eq_iff (a b : Bool) : cmpBool a b = Ordering.eq ↔ a = b := by
  cases a <;> cases b <;> simp [cmpBool]

/-- Helper: `cmpOptionInt` answers `eq` exactly on equal bounds. -/
theorem cmpOptionInt_eq_iff (a b : Option Int) :
    cmpOptionInt a b = Ordering.eq ↔ a = b := by
  cases a <;> cases b <;> simp [cmpOptionInt, cmpD_eq_iff]

/-- Helper: a chained comparison answers `eq` exactly when both components
do. -/
theorem then_eq_eq (o1 o2 : Ordering) :
    o1.then o2 = Ordering.eq ↔ o1 = Ordering.eq ∧ o2 = Ordering.eq := by
  cases o1 <;> simp [Ordering.then]

mutual

/-- Helper: the syntactic comparison answers `eq` only on equal values. -/
theorem eq_of_cmpValue : (a b : Value) → cmpValue a b = Ordering.eq → a = b
  | .intV i, b, h => by
    cases b <;> simp [cmpValue, cmpD_eq_iff, Value.ctorIdx] at h
    simp [h]
  | .decV q, b, h => by
    cases b <;> simp [cmpValue, cmpD_eq_iff, Value.ctorIdx] at h
    simp [h]
  | .strV s, b, h => by
    cases b <;> simp [cmpValue, cmpD_eq_iff, Value.ctorIdx] at h
    simp [h]
  | .boolV x, b, h => by
    cases b <;> simp [cmpValue, cmpD_eq_iff, cmpBool_eq_iff, Value.ctorIdx] at h
    simp [h]
  | .nilV, b, h => by
    cases b <;> simp [cmpValue, cmpD_eq_iff, Value.ctorIdx] at h
    simp [h]
  | .rangeV a oa ia, b, h => by
    cases b <;> simp [cmpValue, cmpD_eq_iff, cmpOptionInt_eq_iff, cmpBool_eq_iff,
      then_eq_eq, Value.ctorIdx] at h
    obtain ⟨h1, h2, h3⟩ := h
    simp [h1, h2, h3]
  | .listV xs, b, h => by
    cases b <;> simp [cmpValue, cmpD_eq_iff, Value.ctorIdx] at h
    exact congrArg Value.listV (eq_of_cmpValueList xs _ h)
  | .dictV es, b, h => by
    cases b <;> simp [cmpValue, cmpD_eq_iff, Value.ctorIdx] at h
    exact congrArg Value.dictV (eq_of_cmpValueEntries es _ h)
  | .setV xs, b, h => by
    cases b <;> simp [cmpValue, cmpD_eq_iff, Value.ctorIdx] at h
    exact congrArg Value.setV (eq_of_cmpValueList xs _ h)

/-- Helper: the lexicographic list comparison answers `eq` only on equal
lists. -/
theorem eq_of_cmpValueList : (as bs : List Value) → cmpValueList as bs = Ordering.eq → as = bs
  | [], [], _ => rfl
  | [], _ :: _, h => by simp [cmpValueList] at h
  | _ :: _, [], h => by simp [cmpValueList] at h
  | a :: as, b :: bs, h => by
    simp only [cmpValueList, then_eq_eq] at h
    rw [eq_of_cmpValue a b h.1, eq_of_cmpValueList as bs h.2]

/-- Helper: the lexicographic entry comparison answers `eq` only on equal
entry lists. -/
theorem eq_of_cmpValueEntries :
    (as bs : List (Value × Value)) → cmpValueEntries as bs = Ordering.eq → as = bs
  | [], [], _ => rfl
  | [], _ :: _, h => by simp [cmpValueEntries] at h
  | _ :: _, [], h => by simp [cmpValueEntries] at h
  | (k1, v1) :: as, (k2, v2) :: bs, h => by
    simp only [cmpValueEntries, then_eq_eq] at h
    obtain ⟨⟨hk, hv⟩, hrest⟩ := h
    rw [eq_of_cmpValue k1 k2 hk, eq_of_cmpValue v1 v2 hv,
      eq_of_cmpValueEntries as bs hrest]

end

/-- Helper: the set hash is the sum of the element hashes. -/
theorem hashSetSum_eq_sum (xs : List Value) :
    hashSetSum xs = (xs.map hashValue).sum := by
  induction xs with
  | nil => rfl
  | cons x xs ih => simp [hashSetSum, ih]

/-- Helper: the dict hash is the sum of the entry hashes. -/
theorem hashEntriesSum_eq_sum (es : List (Value × Value)) :
    hashEntriesSum es = (es.map entryHash).sum := by
  induction es with
  | nil => rfl
  | cons e es ih =>
    obtain ⟨k, v⟩ := e
    simp [hashEntriesSum, entryHash, ih]

/-- Helper: the set hash is invariant under permutation of the elements. -/
theorem hashSetSum_perm {xs ys : List Value} (h : xs.Perm ys) :
    hashSetSum xs = hashSetSum ys := by
  rw [hashSetSum_eq_sum, hashSetSum_eq_sum]
  exact (h.map hashValue).sum_eq

/-- Helper: the dict hash is invariant under permutation of the entries. -/
theorem hashEntriesSum_perm {es fs : List (Value × Value)} (h : es.Perm fs) :
    hashEntriesSum es = hashEntriesSum fs := by
  rw [hashEntriesSum_eq_sum, hashEntriesSum_eq_sum]
  exact (h.map entryHash).sum_eq

mutual

/-- Helper: canonicalisation does not change the hash — reordering Dict
entries and Set elements is absorbed by the order-insensitive sum. -/
theorem hashValue_canon : (v : Value) → hashValue (canonValue v) = hashValue v
  | .intV _ => rfl
  | .decV _ => rfl
  | .strV _ => rfl
  | .boolV _ => rfl
  | .nilV => rfl
  | .rangeV _ _ _ => rfl
  | .listV xs => by
    simp only [canonValue, hashValue]
    rw [hashListOrdered_canon xs]
  | .dictV es => by
    simp only [canonValue, hashValue]
    rw [hashEntriesSum_perm (List.perm_insertionSort entryLE (canonValueEntries es))]
    rw [hashEntriesSum_canon es]
  | .setV xs => by
    simp only [canonValue, hashValue]
    rw [hashSetSum_perm (List.perm_insertionSort valueLE (canonValueList xs))]
    rw [hashSetSum_canon xs]

/-- Helper: elementwise canonicalisation preserves the ordered list hash. -/
theorem hashListOrdered_canon :
    (xs : List Value) → hashListOrdered (canonValueList xs) = hashListOrdered xs
  | [] => rfl
  | x :: xs => by
    simp only [canonValueList, hashListOrdered]
    rw [hashValue_canon x, hashListOrdered_canon xs]

/-- Helper: elementwise canonicalisation preserves the set hash. -/
theorem hashSetSum_canon :
    (xs : List Value) → hashSetSum (canonValueList xs) = hashSetSum xs
  | [] => rfl
  | x :: xs => by
    simp only [canonValueList, hashSetSum]
    rw [hashValue_canon x, hashSetSum_canon xs]

/-- Helper: entrywise canonicalisation preserves the dict hash. -/
theorem hashEntriesSum_canon :
    (es : List (Value × Value)) → hashEntriesSum (canonValueEntries es) = hashEntriesSum es
  | [] => rfl
  | (k, v) :: es => by
    simp only [canonValueEntries, hashEntriesSum]
    rw [hashValue_canon k, hashValue_canon v, hashEntriesSum_canon es]

end

/-- C8: for all runtime values of the hashable kinds, structural equality
implies equal hash codes. -/
theorem valueEquals_hashValue (v w : Value) (h : valueEquals v w = true) :
    hashValue v = hashValue w := by
  have hcmp : cmpValue (canonValue v) (canonValue w) = Ordering.eq :=
    of_decide_eq_true h
  have hc : canonValue v = canonValue w := eq_of_cmpValue _ _ hcmp
  calc hashValue v = hashValue (canonValue v) := (hashValue_canon v).symm
    _ = hashValue (canonValue w) := by rw [hc]
    _ = hashValue w := hashValue_canon w

/-- Witness for C8: the same dict built in two insertion orders is equal
and hashes equally. -/
theorem valueEquals_hashValue_witness :
    valueEquals sampleDictA sampleDictB = true ∧
    hashValue sampleDictA = hashValue sampleDictB :=
  ⟨by decide, valueEquals_hashValue sampleDictA sampleDictB (by decide)⟩

end Prancer
